import Mathlib

/-!
Verification development for the engine-0.2 scene-graph core.

The first part embeds the transform algebra (glm matrices / quaternions and
`TransformComponent`) over the real numbers, and the scene-graph node
lifecycle (`BasicNode`, the render registry, the `EngineManager` frame loop)
as executable definitions over an inductive tree type with explicit parent
back-references and an event-trace semantics.  The second part proves the
spec-level properties about those definitions.
-/

namespace Engine02

noncomputable section RealDefs

/-- glm::vec3 over the reals. -/
@[ext]
structure Vec3 where
  x : ℝ
  y : ℝ
  z : ℝ

/-- glm::vec4 over the reals. -/
@[ext]
structure Vec4 where
  x : ℝ
  y : ℝ
  z : ℝ
  w : ℝ

/-- glm::quat (stored w, x, y, z) over the reals. -/
@[ext]
structure Quat where
  qw : ℝ
  qx : ℝ
  qy : ℝ
  qz : ℝ

/-- glm::mat4, column major: `c0`..`c3` are the four columns. -/
@[ext]
structure Mat4 where
  c0 : Vec4
  c1 : Vec4
  c2 : Vec4
  c3 : Vec4

/-- Componentwise vector addition (used by `moveObj`: `m_position += dirVec`). -/
def Vec3.add (a b : Vec3) : Vec3 := ⟨a.x + b.x, a.y + b.y, a.z + b.z⟩

/-- Matrix times column vector. -/
def Mat4.mulVec (m : Mat4) (v : Vec4) : Vec4 :=
  ⟨m.c0.x * v.x + m.c1.x * v.y + m.c2.x * v.z + m.c3.x * v.w,
   m.c0.y * v.x + m.c1.y * v.y + m.c2.y * v.z + m.c3.y * v.w,
   m.c0.z * v.x + m.c1.z * v.y + m.c2.z * v.z + m.c3.z * v.w,
   m.c0.w * v.x + m.c1.w * v.y + m.c2.w * v.z + m.c3.w * v.w⟩

/-- glm matrix product `a * b` (columns of the product are `a` applied to the columns of `b`). -/
def Mat4.mul (a b : Mat4) : Mat4 :=
  ⟨a.mulVec b.c0, a.mulVec b.c1, a.mulVec b.c2, a.mulVec b.c3⟩

/-- glm::mat4(1.f), the identity matrix. -/
def Mat4.identity : Mat4 :=
  ⟨⟨1, 0, 0, 0⟩, ⟨0, 1, 0, 0⟩, ⟨0, 0, 1, 0⟩, ⟨0, 0, 0, 1⟩⟩

/-- glm::translate(mat4(1.f), v). -/
def glmTranslate (v : Vec3) : Mat4 :=
  ⟨⟨1, 0, 0, 0⟩, ⟨0, 1, 0, 0⟩, ⟨0, 0, 1, 0⟩, ⟨v.x, v.y, v.z, 1⟩⟩

/-- glm::scale(mat4(1.f), v). -/
def glmScale (v : Vec3) : Mat4 :=
  ⟨⟨v.x, 0, 0, 0⟩, ⟨0, v.y, 0, 0⟩, ⟨0, 0, v.z, 0⟩, ⟨0, 0, 0, 1⟩⟩

/-- glm::toMat4(q): quaternion to rotation matrix (glm mat3_cast embedded in mat4). -/
def glmToMat4 (q : Quat) : Mat4 :=
  ⟨⟨1 - 2 * (q.qy ^ 2 + q.qz ^ 2), 2 * (q.qx * q.qy + q.qw * q.qz),
    2 * (q.qx * q.qz - q.qw * q.qy), 0⟩,
   ⟨2 * (q.qx * q.qy - q.qw * q.qz), 1 - 2 * (q.qx ^ 2 + q.qz ^ 2),
    2 * (q.qy * q.qz + q.qw * q.qx), 0⟩,
   ⟨2 * (q.qx * q.qz + q.qw * q.qy), 2 * (q.qy * q.qz - q.qw * q.qx),
    1 - 2 * (q.qx ^ 2 + q.qy ^ 2), 0⟩,
   ⟨0, 0, 0, 1⟩⟩

/-- Hamilton product, glm::quat operator*. -/
def Quat.mul (a b : Quat) : Quat :=
  ⟨a.qw * b.qw - a.qx * b.qx - a.qy * b.qy - a.qz * b.qz,
   a.qw * b.qx + a.qx * b.qw + a.qy * b.qz - a.qz * b.qy,
   a.qw * b.qy - a.qx * b.qz + a.qy * b.qw + a.qz * b.qx,
   a.qw * b.qz + a.qx * b.qy - a.qy * b.qx + a.qz * b.qw⟩

/-- The identity quaternion (default `m_rotation`, cast from `glm::mat4(1.f)`). -/
def Quat.one : Quat := ⟨1, 0, 0, 0⟩

/-- glm::radians: degrees to radians. -/
def glmRadians (deg : ℝ) : ℝ := deg * (Real.pi / 180)

/-- glm::radians applied componentwise to a vec3. -/
def glmRadiansVec (v : Vec3) : Vec3 := ⟨glmRadians v.x, glmRadians v.y, glmRadians v.z⟩

/-- glm::quat(vec3 eulerAngle): Euler radians to quaternion via half-angle cos/sin. -/
def glmQuatOfEuler (e : Vec3) : Quat :=
  ⟨Real.cos (e.x * (1 / 2)) * Real.cos (e.y * (1 / 2)) * Real.cos (e.z * (1 / 2)) +
     Real.sin (e.x * (1 / 2)) * Real.sin (e.y * (1 / 2)) * Real.sin (e.z * (1 / 2)),
   Real.sin (e.x * (1 / 2)) * Real.cos (e.y * (1 / 2)) * Real.cos (e.z * (1 / 2)) -
     Real.cos (e.x * (1 / 2)) * Real.sin (e.y * (1 / 2)) * Real.sin (e.z * (1 / 2)),
   Real.cos (e.x * (1 / 2)) * Real.sin (e.y * (1 / 2)) * Real.cos (e.z * (1 / 2)) +
     Real.sin (e.x * (1 / 2)) * Real.cos (e.y * (1 / 2)) * Real.sin (e.z * (1 / 2)),
   Real.cos (e.x * (1 / 2)) * Real.cos (e.y * (1 / 2)) * Real.sin (e.z * (1 / 2)) -
     Real.sin (e.x * (1 / 2)) * Real.sin (e.y * (1 / 2)) * Real.cos (e.z * (1 / 2))⟩

/-- glm::angleAxis(angle, axis). -/
def glmAngleAxis (angle : ℝ) (axis : Vec3) : Quat :=
  ⟨Real.cos (angle * (1 / 2)), axis.x * Real.sin (angle * (1 / 2)),
   axis.y * Real.sin (angle * (1 / 2)), axis.z * Real.sin (angle * (1 / 2))⟩

/-- State of `Engine::TransformComponent` (TransformComponent.h). -/
structure TransformComponent where
  m_modelMatrix : Mat4
  m_position : Vec3
  m_scale : Vec3
  m_rotation : Quat

/-- The `TransformComponent` default constructor: identity matrix, unit scale,
origin position, identity rotation. -/
def TransformComponent.init : TransformComponent :=
  ⟨Mat4.identity, ⟨0, 0, 0⟩, ⟨1, 1, 1⟩, Quat.one⟩

/-- `TransformComponent::updateModelMatrix`:
`m_modelMatrix = posMat * rotMat * scaleMat`. -/
def TransformComponent.updateModelMatrix (t : TransformComponent) : TransformComponent :=
  { t with
    m_modelMatrix :=
      ((glmTranslate t.m_position).mul (glmToMat4 t.m_rotation)).mul (glmScale t.m_scale) }

/-- `TransformComponent::moveObj`: `m_position += dirVec; updateModelMatrix()`. -/
def TransformComponent.moveObj (t : TransformComponent) (dirVec : Vec3) : TransformComponent :=
  TransformComponent.updateModelMatrix { t with m_position := t.m_position.add dirVec }

/-- `TransformComponent::rotateObj`:
`m_rotation *= glm::angleAxis(glm::radians(degrees), dirVec); updateModelMatrix()`. -/
def TransformComponent.rotateObj (t : TransformComponent) (dirVec : Vec3) (degrees : ℝ) :
    TransformComponent :=
  TransformComponent.updateModelMatrix
    { t with m_rotation := t.m_rotation.mul (glmAngleAxis (glmRadians degrees) dirVec) }

/-- `TransformComponent::setRotation`: converts Euler degrees to a quaternion and
stores it. Note: the source does NOT call `updateModelMatrix()` here. -/
def TransformComponent.setRotation (t : TransformComponent) (rotDegrees : Vec3) :
    TransformComponent :=
  { t with m_rotation := glmQuatOfEuler (glmRadiansVec rotDegrees) }

/-- `TransformComponent::setPosition`: `m_position = pos; updateModelMatrix()`. -/
def TransformComponent.setPosition (t : TransformComponent) (pos : Vec3) : TransformComponent :=
  TransformComponent.updateModelMatrix { t with m_position := pos }

/-- `TransformComponent::setScale`: `m_scale = scale; updateModelMatrix()`. -/
def TransformComponent.setScale (t : TransformComponent) (scale : Vec3) : TransformComponent :=
  TransformComponent.updateModelMatrix { t with m_scale := scale }

/-- `TransformComponent::getModelMatrix`. -/
def TransformComponent.getModelMatrix (t : TransformComponent) : Mat4 := t.m_modelMatrix

/-- A node as seen by the global-transform queries of `BasicNode`: its local
model matrix and an optional parent (`m_parentNode.lock()`). -/
inductive PNode where
  | mk (localM : Mat4) (parent : Option PNode)

/-- `BasicNode`'s inherited `getModelMatrix` for the parent-chain model. -/
def PNode.getModelMatrix : PNode → Mat4
  | .mk l _ => l

/-- `BasicNode::getGlobalModelMatrix`: parent's global matrix times own local
matrix when a parent exists, else the local matrix. -/
def PNode.getGlobalModelMatrix : PNode → Mat4
  | .mk l none => l
  | .mk l (some p) => (PNode.getGlobalModelMatrix p).mul l

/-- `BasicNode::getGlobalPosition`: the translation column (`matrix[3]`) of the
global model matrix, truncated to a vec3. -/
def PNode.getGlobalPosition (n : PNode) : Vec3 :=
  ⟨n.getGlobalModelMatrix.c3.x, n.getGlobalModelMatrix.c3.y, n.getGlobalModelMatrix.c3.z⟩

/-- The local model matrices along the ancestor chain, listed root first, the
node itself last. -/
def PNode.chainMats : PNode → List Mat4
  | .mk l none => [l]
  | .mk l (some p) => PNode.chainMats p ++ [l]

/-- Product of a list of matrices, multiplied left to right. -/
def matListProd (ms : List Mat4) : Mat4 := ms.foldl Mat4.mul Mat4.identity

/-- The 3-level translation chain of the spec: root at the origin, child at
local position (1,0,0), grandchild at local position (0,1,0), with local
matrices produced by `TransformComponent::setPosition`. -/
def grandchildChain : PNode :=
  PNode.mk (TransformComponent.init.setPosition ⟨0, 1, 0⟩).m_modelMatrix
    (some (PNode.mk (TransformComponent.init.setPosition ⟨1, 0, 0⟩).m_modelMatrix
      (some (PNode.mk TransformComponent.init.m_modelMatrix none))))

/-- The non-uniform-scale example of the spec: parent scaled by (2,1,1), child
at local position (1,0,0). -/
def scaledChildChain : PNode :=
  PNode.mk (TransformComponent.init.setPosition ⟨1, 0, 0⟩).m_modelMatrix
    (some (PNode.mk (TransformComponent.init.setScale ⟨2, 1, 1⟩).m_modelMatrix none))

/-- The transform state reached by `setPosition((1,0,0))` then
`setRotation((180,0,0))` from a fresh `TransformComponent`. -/
def rotStaleState : TransformComponent :=
  (TransformComponent.init.setPosition ⟨1, 0, 0⟩).setRotation ⟨180, 0, 0⟩

end RealDefs

section SceneGraphDefs

/-- The capability of a node, as decided by the `dynamic_pointer_cast` chain in
BasicNode.cpp (`GeometryComponent` first, else `Ui::UiDebugWindow`, else
neither). -/
inductive Cap where
  | geometry
  | debugUi
  | plain
deriving DecidableEq, Repr

/-- A scene-graph node (`BasicNode`): unique id (`m_nodeId`), capability, weak
parent back-reference (`m_parentNode`), and strongly owned ordered children
(`m_childNodes`). -/
inductive Tree where
  | node (nid : Nat) (cap : Cap) (parentRef : Option Nat) (children : List Tree)

/-- The node id. -/
def Tree.nid : Tree → Nat
  | .node i _ _ _ => i

/-- The node capability. -/
def Tree.cap : Tree → Cap
  | .node _ c _ _ => c

/-- The parent back-reference (`m_parentNode`, as the parent's id or none). -/
def Tree.parentRef : Tree → Option Nat
  | .node _ _ p _ => p

/-- The owned child list. -/
def Tree.children : Tree → List Tree
  | .node _ _ _ cs => cs

/-- `BasicNode::setParent`: overwrite the parent back-reference. -/
def Tree.setParentRef : Tree → Option Nat → Tree
  | .node i c _ cs, p => .node i c p cs

/-- Replace the child list (`m_childNodes`). -/
def Tree.setChildren : Tree → List Tree → Tree
  | .node i c p _, cs => .node i c p cs

mutual

/-- The order in which `callOnAllChildrenRecursiveAndSelf` visits a subtree:
depth first, children before the node itself (post-order), reported as ids. -/
def Tree.postIds : Tree → List Nat
  | .node i _ _ cs => Forest.postIds cs ++ [i]

/-- Post-order visit sequence of a list of sibling subtrees, left to right. -/
def Forest.postIds : List Tree → List Nat
  | [] => []
  | t :: ts => t.postIds ++ Forest.postIds ts

end

mutual

/-- The back-reference half of the ownership invariant: every child's
`m_parentNode` designates the node whose `m_childNodes` holds it. -/
def Tree.backrefOk : Tree → Bool
  | .node i _ _ cs => backrefOkF i cs

/-- `Tree.backrefOk` for the children of a node with id `pid`. -/
def backrefOkF : Nat → List Tree → Bool
  | _, [] => true
  | pid, t :: ts => (t.parentRef == some pid) && t.backrefOk && backrefOkF pid ts

end

/-- The ownership invariant of the spec for one tree: child lists and parent
back-references agree, and no node (id) appears in two places. -/
def Tree.consistent (t : Tree) : Prop := t.backrefOk = true ∧ t.postIds.Nodup

instance instDecidableTreeConsistent (t : Tree) : Decidable t.consistent :=
  inferInstanceAs (Decidable (t.backrefOk = true ∧ t.postIds.Nodup))

mutual

/-- Locate the node with id `k` in a tree (the node itself included). -/
def Tree.findNode : Tree → Nat → Option Tree
  | .node i c p cs, k => if i = k then some (.node i c p cs) else findInForest cs k

/-- Locate the node with id `k` in a list of sibling subtrees. -/
def findInForest : List Tree → Nat → Option Tree
  | [], _ => none
  | t :: ts, k =>
    match t.findNode k with
    | some u => some u
    | none => findInForest ts k

end

mutual

/-- Apply `f` in place to the node with id `k` inside a tree. -/
def Tree.mapAt : Tree → Nat → (Tree → Tree) → Tree
  | .node i c p cs, k, f =>
    if i = k then f (.node i c p cs) else .node i c p (mapAtForest cs k f)

/-- `Tree.mapAt` over a list of sibling subtrees. -/
def mapAtForest : List Tree → Nat → (Tree → Tree) → List Tree
  | [], _, _ => []
  | t :: ts, k, f => t.mapAt k f :: mapAtForest ts k f

end

/-- The render registry (RenderRegistry of the spec): flat id-keyed collections
of drawable and of debug-UI nodes. -/
structure Registry where
  geom : List Nat
  ui : List Nat
deriving DecidableEq, Repr

/-- Modelled from the spec: `EngineManager::addGeometryToScene` (declared in the
missing EngineManager.h) — register a drawable id in the id-keyed drawable
mapping. -/
def Registry.addGeom (r : Registry) (i : Nat) : Registry :=
  if i ∈ r.geom then r else { r with geom := r.geom ++ [i] }

/-- Modelled from the spec: `EngineManager::removeGeometryFromScene` — remove a
drawable id; a no-op when the id is absent (idempotent-safe double-unregister). -/
def Registry.removeGeom (r : Registry) (i : Nat) : Registry :=
  { r with geom := r.geom.filter (fun j => j != i) }

/-- Modelled from the spec: `EngineManager::addDebugUiToScene` — register a
debug-UI id. -/
def Registry.addUi (r : Registry) (i : Nat) : Registry :=
  if i ∈ r.ui then r else { r with ui := r.ui ++ [i] }

/-- Modelled from the spec: `EngineManager::removeDebugUiFromScene` — remove a
debug-UI id; a no-op when the id is absent. -/
def Registry.removeUi (r : Registry) (i : Nat) : Registry :=
  { r with ui := r.ui.filter (fun j => j != i) }

/-- Primitive observable steps taken by the graph operations, in program
order. -/
inductive Ev where
  | appendChild (p c : Nat)
  | setParentEv (c : Nat) (p : Option Nat)
  | regGeom (c : Nat)
  | regUi (c : Nat)
  | unregGeom (c : Nat)
  | unregUi (c : Nat)
  | startHook (c : Nat)
  | updateHook (c : Nat)
  | eraseChild (p c : Nat)
  | clearChildren (p : Nat)
  | drawCall (c : Nat)
  | clearFrame
deriving DecidableEq, Repr

/-- Registration step of `BasicNode::addChild`: drawable first, else debug-UI,
else nothing. -/
def capRegister (r : Registry) (c : Tree) : Registry :=
  match c.cap with
  | .geometry => r.addGeom c.nid
  | .debugUi => r.addUi c.nid
  | .plain => r

/-- `BasicNode::addChild`: append the child, set its parent back-reference,
register its capability, then invoke `start()` (a hook, no state change here). -/
def addChild (p c : Tree) (r : Registry) : Tree × Registry :=
  (p.setChildren (p.children ++ [c.setParentRef (some p.nid)]), capRegister r c)

/-- The event trace of `BasicNode::addChild`, in source order: append, set
parent, register capability, start hook. -/
def addChildTrace (p c : Tree) : List Ev :=
  [.appendChild p.nid c.nid, .setParentEv c.nid (some p.nid)] ++
    (match c.cap with
     | .geometry => [.regGeom c.nid]
     | .debugUi => [.regUi c.nid]
     | .plain => []) ++ [.startHook c.nid]

/-- `BasicNode::cleanupNode`: `setParent(nullptr)` FIRST, then remove the node's
own registry entry (drawable or debug-UI). -/
def cleanupNode (t : Tree) (r : Registry) : Tree × Registry :=
  (t.setParentRef none,
    match t.cap with
    | .geometry => r.removeGeom t.nid
    | .debugUi => r.removeUi t.nid
    | .plain => r)

/-- The event trace of `BasicNode::cleanupNode`, in source order. -/
def cleanupTrace (t : Tree) : List Ev :=
  .setParentEv t.nid none ::
    (match t.cap with
     | .geometry => [.unregGeom t.nid]
     | .debugUi => [.unregUi t.nid]
     | .plain => [])

/-- The erase loop of `BasicNode::detatchChild(id)`: the first child whose id
matches, and the remaining children in order. -/
def detachFirst (k : Nat) : List Tree → Option (Tree × List Tree)
  | [] => none
  | t :: ts =>
    if t.nid = k then some (t, ts)
    else
      match detachFirst k ts with
      | none => none
      | some (c, rest) => some (c, t :: rest)

/-- `BasicNode::detatchChild(id)`: erase the first child with the id, run
`cleanupNode` on it, return it; `nullptr` (none) when no child matches. -/
def detatchChild (p : Tree) (r : Registry) (k : Nat) : Tree × Registry × Option Tree :=
  match detachFirst k p.children with
  | none => (p, r, none)
  | some (c, rest) =>
    let res := cleanupNode c r
    (p.setChildren rest, res.2, some res.1)

/-- The event trace of `BasicNode::detatchChild(id)`. -/
def detatchChildTrace (p : Tree) (k : Nat) : List Ev :=
  match detachFirst k p.children with
  | none => []
  | some (c, _) => .eraseChild p.nid k :: cleanupTrace c

/-- The per-child body of `BasicNode::detatchAllChildren`: walk the child's
whole subtree post-order unregistering geometry
(`callOnAllChildrenRecursiveAndSelf` with `removeGeometryFromScene`), then
`cleanupNode`, then a second `setParent(nullptr)`. -/
def detachOneChild (r : Registry) (c : Tree) : Tree × Registry :=
  let r1 := c.postIds.foldl Registry.removeGeom r
  let res := cleanupNode c r1
  (res.1.setParentRef none, res.2)

/-- The event trace of the per-child body of `detatchAllChildren`. -/
def detachOneChildTrace (c : Tree) : List Ev :=
  c.postIds.map Ev.unregGeom ++ cleanupTrace c ++ [.setParentEv c.nid none]

/-- One iteration of the `detatchAllChildren` loop: thread the registry through
the per-child body and collect the detached child. -/
def detachAllStep (acc : Registry × List Tree) (c : Tree) : Registry × List Tree :=
  ((detachOneChild acc.1 c).2, acc.2 ++ [(detachOneChild acc.1 c).1])

/-- `BasicNode::detatchAllChildren`: run the per-child body on every child in
order, then move the child list out (leaving it empty) and return the former
children. -/
def detatchAllChildren (p : Tree) (r : Registry) : Tree × Registry × List Tree :=
  let fin := p.children.foldl detachAllStep (r, [])
  (p.setChildren [], fin.1, fin.2)

/-- The event trace of `BasicNode::detatchAllChildren`. -/
def detatchAllChildrenTrace (p : Tree) : List Ev :=
  (p.children.map detachOneChildTrace).flatten ++ [.clearChildren p.nid]

/-- `BasicNode::detatchFromParent` (also `deleteNode`): walk the node's own
subtree post-order unregistering geometry, then clear the own parent link.
Note: the former parent's child list is NOT touched. -/
def detatchFromParent (t : Tree) (r : Registry) : Tree × Registry :=
  (t.setParentRef none, t.postIds.foldl Registry.removeGeom r)

/-- The event trace of `BasicNode::detatchFromParent`. -/
def detatchFromParentTrace (t : Tree) : List Ev :=
  t.postIds.map Ev.unregGeom ++ [.setParentEv t.nid none]

/-- `BasicNode::detatchFromParent` invoked on the node with id `k` inside a
larger tree: only that node's own back-reference and the registry change; the
enclosing parent's child list is untouched. -/
def detachFromParentAt (root : Tree) (k : Nat) (r : Registry) : Tree × Registry :=
  match root.findNode k with
  | none => (root, r)
  | some sub =>
    (root.mapAt k (fun t => t.setParentRef none), sub.postIds.foldl Registry.removeGeom r)

/-- The observable pieces of one node's lifecycle state that claim C4 talks
about: its parent link and its presence in the two registry collections. -/
structure Obs where
  parentLink : Option Nat
  inGeom : Bool
  inUi : Bool
deriving DecidableEq, Repr

/-- How one primitive event changes the observable state of node `k`. -/
def stepObs (k : Nat) (s : Obs) (e : Ev) : Obs :=
  match e with
  | .setParentEv c p => if c = k then { s with parentLink := p } else s
  | .regGeom c => if c = k then { s with inGeom := true } else s
  | .regUi c => if c = k then { s with inUi := true } else s
  | .unregGeom c => if c = k then { s with inGeom := false } else s
  | .unregUi c => if c = k then { s with inUi := false } else s
  | _ => s

/-- All observable states of node `k` along a trace, initial state included. -/
def obsStates (k : Nat) (s : Obs) : List Ev → List Obs
  | [] => [s]
  | e :: tr => s :: obsStates k (stepObs k s e) tr

/-- A dangling observable state: the parent link is already cleared while a
registry entry is still present. -/
def dangling (s : Obs) : Bool := s.parentLink == none && (s.inGeom || s.inUi)

/-- The engine-side state of `EngineManager` that the claims touch: the scene
root slot, the optional active camera, and the registry. -/
structure EngineState where
  m_sceneNode : Option Tree
  m_camera : Option Nat
  registry : Registry

/-- Modelled from the spec: `BasicNode::removeAllChildNodes`, called by
`EngineManager::setScene` but implemented in a file missing from src/ — per
spec section 4.4 it fully detaches the existing root's subtree; embedded as the
in-src detach-all implementation `BasicNode::detatchAllChildren` with the
returned children discarded (`deleteAllChildren`). -/
def removeAllChildNodes (t : Tree) (r : Registry) : Tree × Registry :=
  let res := detatchAllChildren t r
  (res.1, res.2.1)

/-- `EngineManager::setScene`: when a scene root already exists, detach all of
its children first, then install the new root. -/
def setScene (e : EngineState) (newRoot : Tree) : EngineState :=
  match e.m_sceneNode with
  | some old =>
    let res := removeAllChildNodes old e.registry
    { e with m_sceneNode := some newRoot, registry := res.2 }
  | none => { e with m_sceneNode := some newRoot }

/-- `BasicNode::callOnAllChildren` as a trace: the function applied to each
direct child in child-list order, and to no other node. -/
def callOnAllChildrenTrace (t : Tree) (f : Nat → Ev) : List Ev :=
  t.children.map (fun c => f c.nid)

/-- `EngineManager::engineUpdate`: `getScene()->callOnAllChildren(update)`. -/
def engineUpdateTrace (root : Tree) : List Ev :=
  callOnAllChildrenTrace root Ev.updateHook

/-- `EngineManager::drawNode`: delegate rendering iff the node is drawable. -/
def drawNodeEv (c : Tree) : List Ev :=
  match c.cap with
  | .geometry => [.drawCall c.nid]
  | _ => []

/-- `EngineManager::engineDraw`: with a camera, clear the frame buffer and run
`drawNode` on the scene root's direct children; without a camera, print the
"No camera..." diagnostic and do nothing else. -/
def engineDraw (e : EngineState) : EngineState × List Ev × List String :=
  match e.m_camera with
  | some _ =>
    (e,
      Ev.clearFrame ::
        (match e.m_sceneNode with
         | some root => (root.children.map drawNodeEv).flatten
         | none => []),
      [])
  | none => (e, [], ["No camera..."])

/-- Concrete example: a root with two direct children (one with a deeper
grandchild) for the frame-loop properties. -/
def updRoot : Tree :=
  .node 1 .plain none
    [.node 2 .plain (some 1) [.node 4 .plain (some 2) []], .node 3 .geometry (some 1) []]

/-- Concrete example: a parent whose single child (id 2) is a registered
drawable. -/
def geomChildParent : Tree := .node 1 .plain none [.node 2 .geometry (some 1) []]

/-- Concrete example: a registry holding only the drawable with id 2. -/
def geomChildReg : Registry := ⟨[2], []⟩

/-- Concrete example: a root whose child (id 2) owns a debug-UI grandchild
(id 3). -/
def uiGrandchildTree : Tree :=
  .node 1 .plain none [.node 2 .plain (some 1) [.node 3 .debugUi (some 2) []]]

/-- Concrete example: a registry holding only the debug-UI entry of node 3. -/
def uiGrandchildReg : Registry := ⟨[], [3]⟩

/-- Concrete example: a fresh scene root with id 4. -/
def newRootTree : Tree := .node 4 .plain none []

/-- Concrete example: an engine whose current scene is `uiGrandchildTree` with
`uiGrandchildReg` as registry. -/
def engineWithOldScene : EngineState := ⟨some uiGrandchildTree, none, uiGrandchildReg⟩

/-- Concrete example: a childless plain parent node. -/
def pEmpty : Tree := .node 1 .plain none []

/-- Concrete example: a standalone drawable node. -/
def cGeom : Tree := .node 2 .geometry none []

/-- Concrete example: a standalone debug-UI node. -/
def cUi : Tree := .node 3 .debugUi none []

/-- Concrete example: a standalone plain node. -/
def cPlain : Tree := .node 5 .plain none []

/-- Concrete example: the empty registry. -/
def emptyReg : Registry := ⟨[], []⟩

end SceneGraphDefs

section RealProofs

lemma Mat4.one_mul (m : Mat4) : Mat4.identity.mul m = m := by
  ext <;> simp [Mat4.mul, Mat4.mulVec, Mat4.identity]

lemma Mat4.mul_one (m : Mat4) : m.mul Mat4.identity = m := by
  ext <;> simp [Mat4.mul, Mat4.mulVec, Mat4.identity]

lemma Mat4.mul_assoc (a b c : Mat4) : (a.mul b).mul c = a.mul (b.mul c) := by
  ext <;> simp [Mat4.mul, Mat4.mulVec] <;> ring

lemma glmToMat4_one : glmToMat4 Quat.one = Mat4.identity := by
  ext <;> norm_num [glmToMat4, Quat.one, Mat4.identity]

lemma glmScale_one : glmScale ⟨1, 1, 1⟩ = Mat4.identity := by
  ext <;> simp [glmScale, Mat4.identity]

lemma glmTranslate_zero : glmTranslate ⟨0, 0, 0⟩ = Mat4.identity := by
  ext <;> simp [glmTranslate, Mat4.identity]

lemma init_setPosition_matrix (p : Vec3) :
    (TransformComponent.init.setPosition p).m_modelMatrix = glmTranslate p := by
  simp [TransformComponent.setPosition, TransformComponent.updateModelMatrix,
    TransformComponent.init, glmToMat4_one, glmScale_one, Mat4.mul_one]

lemma init_setScale_matrix (s : Vec3) :
    (TransformComponent.init.setScale s).m_modelMatrix = glmScale s := by
  simp [TransformComponent.setScale, TransformComponent.updateModelMatrix,
    TransformComponent.init, glmToMat4_one, glmTranslate_zero, Mat4.one_mul]

lemma pnode_global_eq_chainProd :
    (n : PNode) → n.getGlobalModelMatrix = matListProd n.chainMats
  | .mk l none => by
    simp [PNode.getGlobalModelMatrix, PNode.chainMats, matListProd, Mat4.one_mul]
  | .mk l (some p) => by
    have ih := pnode_global_eq_chainProd p
    simp [PNode.getGlobalModelMatrix, PNode.chainMats, matListProd, List.foldl_append] at ih ⊢
    rw [ih]

/-- The quaternion produced by `setRotation((180,0,0))`. -/
lemma glmQuatOfEuler_rot180x : glmQuatOfEuler (glmRadiansVec ⟨180, 0, 0⟩) = ⟨0, 1, 0, 0⟩ := by
  have hx : glmRadians 180 * (1 / 2 : ℝ) = Real.pi / 2 := by unfold glmRadians; ring
  have h0 : glmRadians 0 * (1 / 2 : ℝ) = 0 := by unfold glmRadians; ring
  ext <;>
    (dsimp only [glmQuatOfEuler, glmRadiansVec]
     rw [hx, h0, Real.cos_pi_div_two, Real.sin_pi_div_two, Real.cos_zero, Real.sin_zero]
     norm_num)

/-- C1: for every node, `getGlobalModelMatrix` is the product of the local model
matrices along the ancestor chain from the root down to the node, and
`getGlobalPosition` is the translation column of that product; in particular the
3-level translation chain (root at origin, child at (1,0,0), grandchild at
(0,1,0)) puts the grandchild at global position (1,1,0), and a parent scaled by
(2,1,1) with a child at local position (1,0,0) puts the child at (2,0,0). -/
theorem global_matrix_is_chain_product :
    (∀ n : PNode, n.getGlobalModelMatrix = matListProd n.chainMats) ∧
    (∀ n : PNode,
      n.getGlobalPosition = ⟨(matListProd n.chainMats).c3.x, (matListProd n.chainMats).c3.y,
        (matListProd n.chainMats).c3.z⟩) ∧
    grandchildChain.getGlobalPosition = ⟨1, 1, 0⟩ ∧
    scaledChildChain.getGlobalPosition = ⟨2, 0, 0⟩ := by
  refine ⟨pnode_global_eq_chainProd, ?_, ?_, ?_⟩
  · intro n
    simp [PNode.getGlobalPosition, pnode_global_eq_chainProd]
  · simp only [grandchildChain, PNode.getGlobalPosition, PNode.getGlobalModelMatrix,
      init_setPosition_matrix]
    norm_num [TransformComponent.init, Mat4.one_mul, glmTranslate, Mat4.mul, Mat4.mulVec,
      Mat4.identity, Vec3.mk.injEq]
  · simp only [scaledChildChain, PNode.getGlobalPosition, PNode.getGlobalModelMatrix,
      init_setPosition_matrix, init_setScale_matrix]
    norm_num [glmTranslate, glmScale, Mat4.mul, Mat4.mulVec, Vec3.mk.injEq]

/-- C5 (code bug): `setRotation` stores the new quaternion but does not call
`updateModelMatrix`, so after `setPosition((1,0,0))` followed by
`setRotation((180,0,0))` the stored model matrix is still the bare translation
and differs from `translation(position) * rotationMatrix(quaternion) *
scale(scale)` recomputed from the fields after the mutation. -/
theorem setRotation_leaves_model_matrix_stale :
    rotStaleState.m_modelMatrix = glmTranslate ⟨1, 0, 0⟩ ∧
    rotStaleState.m_rotation = (⟨0, 1, 0, 0⟩ : Quat) ∧
    rotStaleState.m_modelMatrix ≠
      ((glmTranslate rotStaleState.m_position).mul (glmToMat4 rotStaleState.m_rotation)).mul
        (glmScale rotStaleState.m_scale) := by
  have hm : rotStaleState.m_modelMatrix = glmTranslate ⟨1, 0, 0⟩ := by
    simp [rotStaleState, TransformComponent.setRotation, init_setPosition_matrix]
  have hq : rotStaleState.m_rotation = (⟨0, 1, 0, 0⟩ : Quat) := by
    simp [rotStaleState, TransformComponent.setRotation, glmQuatOfEuler_rot180x]
  have hp : rotStaleState.m_position = ⟨1, 0, 0⟩ := rfl
  have hs : rotStaleState.m_scale = ⟨1, 1, 1⟩ := rfl
  refine ⟨hm, hq, ?_⟩
  rw [hm, hq, hp, hs]
  intro h
  have h2 := congrArg (fun m => m.c1.y) h
  norm_num [glmTranslate, glmToMat4, glmScale, Mat4.mul, Mat4.mulVec] at h2

/-- The other four `TransformComponent` mutators do recompute the model matrix
from the fields as they stand after the mutation; `setRotation` leaves the
stored matrix untouched while changing the quaternion field. -/
theorem mutators_recompute_model_matrix :
    (∀ (t : TransformComponent) (p : Vec3),
      (t.setPosition p).m_modelMatrix =
        ((glmTranslate (t.setPosition p).m_position).mul
          (glmToMat4 (t.setPosition p).m_rotation)).mul (glmScale (t.setPosition p).m_scale)) ∧
    (∀ (t : TransformComponent) (s : Vec3),
      (t.setScale s).m_modelMatrix =
        ((glmTranslate (t.setScale s).m_position).mul
          (glmToMat4 (t.setScale s).m_rotation)).mul (glmScale (t.setScale s).m_scale)) ∧
    (∀ (t : TransformComponent) (d : Vec3),
      (t.moveObj d).m_modelMatrix =
        ((glmTranslate (t.moveObj d).m_position).mul
          (glmToMat4 (t.moveObj d).m_rotation)).mul (glmScale (t.moveObj d).m_scale)) ∧
    (∀ (t : TransformComponent) (axis : Vec3) (deg : ℝ),
      (t.rotateObj axis deg).m_modelMatrix =
        ((glmTranslate (t.rotateObj axis deg).m_position).mul
          (glmToMat4 (t.rotateObj axis deg).m_rotation)).mul
          (glmScale (t.rotateObj axis deg).m_scale)) ∧
    (∀ (t : TransformComponent) (rd : Vec3),
      (t.setRotation rd).m_modelMatrix = t.m_modelMatrix ∧
        (t.setRotation rd).m_rotation = glmQuatOfEuler (glmRadiansVec rd)) :=
  ⟨fun _ _ => rfl, fun _ _ => rfl, fun _ _ => rfl, fun _ _ _ => rfl, fun _ _ => ⟨rfl, rfl⟩⟩

end RealProofs

section SceneGraphProofs

lemma Tree.nid_setParentRef (t : Tree) (q : Option Nat) : (t.setParentRef q).nid = t.nid := by
  cases t; rfl

lemma Tree.parentRef_setParentRef (t : Tree) (q : Option Nat) :
    (t.setParentRef q).parentRef = q := by
  cases t; rfl

lemma Tree.cap_setParentRef (t : Tree) (q : Option Nat) : (t.setParentRef q).cap = t.cap := by
  cases t; rfl

lemma Tree.children_setParentRef (t : Tree) (q : Option Nat) :
    (t.setParentRef q).children = t.children := by
  cases t; rfl

lemma Tree.backrefOk_setParentRef (t : Tree) (q : Option Nat) :
    (t.setParentRef q).backrefOk = t.backrefOk := by
  cases t; rfl

lemma Tree.postIds_setParentRef (t : Tree) (q : Option Nat) :
    (t.setParentRef q).postIds = t.postIds := by
  cases t; rfl

lemma Tree.setParentRef_setParentRef (t : Tree) (q q2 : Option Nat) :
    (t.setParentRef q).setParentRef q2 = t.setParentRef q2 := by
  cases t; rfl

lemma Tree.children_setChildren (t : Tree) (cs : List Tree) :
    (t.setChildren cs).children = cs := by
  cases t; rfl

lemma Tree.nid_setChildren (t : Tree) (cs : List Tree) : (t.setChildren cs).nid = t.nid := by
  cases t; rfl

lemma Tree.postIds_def (t : Tree) : t.postIds = Forest.postIds t.children ++ [t.nid] := by
  cases t; rfl

lemma Tree.backrefOk_def (t : Tree) : t.backrefOk = backrefOkF t.nid t.children := by
  cases t; rfl

lemma Tree.backrefOk_setChildren (t : Tree) (cs : List Tree) :
    (t.setChildren cs).backrefOk = backrefOkF t.nid cs := by
  cases t; rfl

lemma Tree.postIds_setChildren (t : Tree) (cs : List Tree) :
    (t.setChildren cs).postIds = Forest.postIds cs ++ [t.nid] := by
  cases t; rfl

lemma Tree.nid_mem_postIds (t : Tree) : t.nid ∈ t.postIds := by
  rw [Tree.postIds_def]; simp

lemma Forest.postIds_append (xs ys : List Tree) :
    Forest.postIds (xs ++ ys) = Forest.postIds xs ++ Forest.postIds ys := by
  induction xs with
  | nil => simp [Forest.postIds]
  | cons t ts ih => simp [Forest.postIds, ih]

lemma backrefOkF_append (pid : Nat) (xs ys : List Tree) :
    backrefOkF pid (xs ++ ys) = (backrefOkF pid xs && backrefOkF pid ys) := by
  induction xs with
  | nil => simp [backrefOkF]
  | cons t ts ih => simp [backrefOkF, ih, Bool.and_assoc]

/-- C10: with no camera set, the draw pass performs no draw call and no
frame-buffer clear, emits the "No camera..." diagnostic, and leaves the engine
state unchanged. -/
theorem engineDraw_no_camera_noop (e : EngineState) (h : e.m_camera = none) :
    (engineDraw e).1 = e ∧ (engineDraw e).2.1 = [] ∧ (engineDraw e).2.2 = ["No camera..."] := by
  simp [engineDraw, h]

/-- Witness for `engineDraw_no_camera_noop` at a concrete camera-less engine
state. -/
theorem engineDraw_no_camera_noop_witness :
    (engineDraw ⟨none, none, ⟨[], []⟩⟩).1 = (⟨none, none, ⟨[], []⟩⟩ : EngineState) ∧
      (engineDraw ⟨none, none, ⟨[], []⟩⟩).2.1 = [] ∧
      (engineDraw ⟨none, none, ⟨[], []⟩⟩).2.2 = ["No camera..."] :=
  engineDraw_no_camera_noop ⟨none, none, ⟨[], []⟩⟩ rfl

/-- C9: `engineUpdate` issues the update hook once per direct child of the
scene root in child-list order, and on no other node: not on the root itself
(whose id is not among the children) and not on deeper descendants. -/
theorem engineUpdate_direct_children_only (root : Tree)
    (hroot : root.nid ∉ root.children.map Tree.nid)
    (hnd : (root.children.map Tree.nid).Nodup) :
    engineUpdateTrace root = root.children.map (fun c => Ev.updateHook c.nid) ∧
      (∀ c ∈ root.children, (engineUpdateTrace root).count (Ev.updateHook c.nid) = 1) ∧
      Ev.updateHook root.nid ∉ engineUpdateTrace root ∧
      (∀ i, i ∉ root.children.map Tree.nid → Ev.updateHook i ∉ engineUpdateTrace root) := by
  have hinj : Function.Injective Ev.updateHook := by
    intro a b hab
    cases hab
    rfl
  have hmap : engineUpdateTrace root = (root.children.map Tree.nid).map Ev.updateHook := by
    simp [engineUpdateTrace, callOnAllChildrenTrace, Function.comp, Tree.nid]
  refine ⟨by simp [engineUpdateTrace, callOnAllChildrenTrace], ?_, ?_, ?_⟩
  · intro c hc
    rw [hmap, List.count_map_of_injective _ _ hinj]
    exact List.count_eq_one_of_mem hnd (List.mem_map_of_mem Tree.nid hc)
  · rw [hmap]
    intro hmem
    rcases List.mem_map.mp hmem with ⟨a, ha, hae⟩
    cases hinj hae
    exact hroot ha
  · intro i hi
    rw [hmap]
    intro hmem
    rcases List.mem_map.mp hmem with ⟨a, ha, hae⟩
    cases hinj hae
    exact hi ha

/-- Witness for `engineUpdate_direct_children_only` on a concrete two-child
root with a deeper grandchild: children 2 and 3 are updated once each, while
the root (1) and the grandchild (4) are never updated. -/
theorem engineUpdate_direct_children_only_witness :
    engineUpdateTrace updRoot = updRoot.children.map (fun c => Ev.updateHook c.nid) ∧
      (engineUpdateTrace updRoot).count
        (Ev.updateHook (Tree.node 2 .plain (some 1) [Tree.node 4 .plain (some 2) []]).nid) = 1 ∧
      Ev.updateHook updRoot.nid ∉ engineUpdateTrace updRoot ∧
      Ev.updateHook 4 ∉ engineUpdateTrace updRoot := by
  have h := engineUpdate_direct_children_only updRoot (by decide) (by decide)
  exact ⟨h.1, h.2.1 _ (List.mem_cons_self _ _), h.2.2.1, h.2.2.2 4 (by decide)⟩

/-- C2: `addChild` appends the child to the parent's list, points the child's
parent back-reference at the parent, registers the child's capability
(drawable into the drawable collection, debug-UI into the debug-UI collection,
nothing for a plain node), and fires the `start()` hook exactly once, with the
registration event strictly before the start event in the trace. -/
theorem addChild_appends_registers_then_starts :
    (∀ (p c : Tree) (r : Registry), c.cap = .geometry →
      (addChild p c r).1.children = p.children ++ [c.setParentRef (some p.nid)] ∧
      (c.setParentRef (some p.nid)).parentRef = some p.nid ∧
      c.nid ∈ (addChild p c r).2.geom ∧
      (addChildTrace p c).count (Ev.startHook c.nid) = 1 ∧
      (addChildTrace p c).get? 2 = some (Ev.regGeom c.nid) ∧
      (addChildTrace p c).get? 3 = some (Ev.startHook c.nid)) ∧
    (∀ (p c : Tree) (r : Registry), c.cap = .debugUi →
      (addChild p c r).1.children = p.children ++ [c.setParentRef (some p.nid)] ∧
      (c.setParentRef (some p.nid)).parentRef = some p.nid ∧
      c.nid ∈ (addChild p c r).2.ui ∧
      (addChildTrace p c).count (Ev.startHook c.nid) = 1 ∧
      (addChildTrace p c).get? 2 = some (Ev.regUi c.nid) ∧
      (addChildTrace p c).get? 3 = some (Ev.startHook c.nid)) ∧
    (∀ (p c : Tree) (r : Registry), c.cap = .plain →
      (addChild p c r).1.children = p.children ++ [c.setParentRef (some p.nid)] ∧
      (c.setParentRef (some p.nid)).parentRef = some p.nid ∧
      (addChild p c r).2 = r ∧
      (addChildTrace p c).count (Ev.startHook c.nid) = 1 ∧
      (addChildTrace p c).get? 2 = some (Ev.startHook c.nid)) := by
  refine ⟨?_, ?_, ?_⟩ <;> intro p c r hcap
  · refine ⟨by simp [addChild, Tree.children_setChildren], Tree.parentRef_setParentRef c _, ?_,
      ?_, ?_, ?_⟩
    · simp only [addChild, capRegister, hcap]
      by_cases hm : c.nid ∈ r.geom
      · simp [Registry.addGeom, hm]
      · simp [Registry.addGeom, hm]
    · simp [addChildTrace, hcap, List.count_cons]
    · simp [addChildTrace, hcap]
    · simp [addChildTrace, hcap]
  · refine ⟨by simp [addChild, Tree.children_setChildren], Tree.parentRef_setParentRef c _, ?_,
      ?_, ?_, ?_⟩
    · simp only [addChild, capRegister, hcap]
      by_cases hm : c.nid ∈ r.ui
      · simp [Registry.addUi, hm]
      · simp [Registry.addUi, hm]
    · simp [addChildTrace, hcap, List.count_cons]
    · simp [addChildTrace, hcap]
    · simp [addChildTrace, hcap]
  · refine ⟨by simp [addChild, Tree.children_setChildren], Tree.parentRef_setParentRef c _, ?_,
      ?_, ?_⟩
    · simp [addChild, capRegister, hcap]
    · simp [addChildTrace, hcap, List.count_cons]
    · simp [addChildTrace, hcap]

/-- Witness for `addChild_appends_registers_then_starts` on concrete drawable,
debug-UI and plain children of a childless parent. -/
theorem addChild_appends_registers_then_starts_witness :
    ((addChild pEmpty cGeom emptyReg).1.children =
        pEmpty.children ++ [cGeom.setParentRef (some pEmpty.nid)] ∧
      (cGeom.setParentRef (some pEmpty.nid)).parentRef = some pEmpty.nid ∧
      cGeom.nid ∈ (addChild pEmpty cGeom emptyReg).2.geom ∧
      (addChildTrace pEmpty cGeom).count (Ev.startHook cGeom.nid) = 1 ∧
      (addChildTrace pEmpty cGeom).get? 2 = some (Ev.regGeom cGeom.nid) ∧
      (addChildTrace pEmpty cGeom).get? 3 = some (Ev.startHook cGeom.nid)) ∧
    ((addChild pEmpty cUi emptyReg).1.children =
        pEmpty.children ++ [cUi.setParentRef (some pEmpty.nid)] ∧
      (cUi.setParentRef (some pEmpty.nid)).parentRef = some pEmpty.nid ∧
      cUi.nid ∈ (addChild pEmpty cUi emptyReg).2.ui ∧
      (addChildTrace pEmpty cUi).count (Ev.startHook cUi.nid) = 1 ∧
      (addChildTrace pEmpty cUi).get? 2 = some (Ev.regUi cUi.nid) ∧
      (addChildTrace pEmpty cUi).get? 3 = some (Ev.startHook cUi.nid)) ∧
    ((addChild pEmpty cPlain emptyReg).1.children =
        pEmpty.children ++ [cPlain.setParentRef (some pEmpty.nid)] ∧
      (cPlain.setParentRef (some pEmpty.nid)).parentRef = some pEmpty.nid ∧
      (addChild pEmpty cPlain emptyReg).2 = emptyReg ∧
      (addChildTrace pEmpty cPlain).count (Ev.startHook cPlain.nid) = 1 ∧
      (addChildTrace pEmpty cPlain).get? 2 = some (Ev.startHook cPlain.nid)) :=
  ⟨addChild_appends_registers_then_starts.1 pEmpty cGeom emptyReg rfl,
   addChild_appends_registers_then_starts.2.1 pEmpty cUi emptyReg rfl,
   addChild_appends_registers_then_starts.2.2 pEmpty cPlain emptyReg rfl⟩

lemma Registry.mem_removeGeom_iff (r : Registry) (i j : Nat) :
    j ∈ (r.removeGeom i).geom ↔ (j ∈ r.geom ∧ j ≠ i) := by
  simp [Registry.removeGeom]

lemma Registry.removeGeom_ui (r : Registry) (i : Nat) : (r.removeGeom i).ui = r.ui := rfl

lemma Registry.mem_removeUi_iff (r : Registry) (i j : Nat) :
    j ∈ (r.removeUi i).ui ↔ (j ∈ r.ui ∧ j ≠ i) := by
  simp [Registry.removeUi]

lemma Registry.removeUi_geom (r : Registry) (i : Nat) : (r.removeUi i).geom = r.geom := rfl

lemma detachFirst_none_of_no_match (k : Nat) :
    ∀ cs : List Tree, (∀ t ∈ cs, t.nid ≠ k) → detachFirst k cs = none
  | [], _ => rfl
  | t :: ts, h => by
    have ht : t.nid ≠ k := h t (List.mem_cons_self t ts)
    have ih := detachFirst_none_of_no_match k ts (fun u hu => h u (List.mem_cons_of_mem t hu))
    simp [detachFirst, ht, ih]

lemma detachFirst_parts (k : Nat) :
    ∀ (cs : List Tree) (c : Tree) (rest : List Tree), detachFirst k cs = some (c, rest) →
      ∃ pre post, cs = pre ++ c :: post ∧ rest = pre ++ post ∧ c.nid = k ∧
        ∀ t ∈ pre, t.nid ≠ k
  | [], c, rest, h => by simp [detachFirst] at h
  | t :: ts, c, rest, h => by
    by_cases ht : t.nid = k
    · simp [detachFirst, ht] at h
      exact ⟨[], ts, by simp [h.1], by simp [h.2], by rw [h.1] at ht; exact ht, by simp⟩
    · simp only [detachFirst, if_neg ht] at h
      cases hrec : detachFirst k ts with
      | none => rw [hrec] at h; simp at h
      | some pr =>
        obtain ⟨c0, rest0⟩ := pr
        rw [hrec] at h
        simp at h
        obtain ⟨hc, hrest⟩ := h
        obtain ⟨pre0, post0, hcs, hr0, hnid, hpre0⟩ := detachFirst_parts k ts c0 rest0 hrec
        subst hc
        refine ⟨t :: pre0, post0, by simp [hcs], by simp [← hrest, hr0], hnid, ?_⟩
        intro u hu
        rcases List.mem_cons.mp hu with h1 | h2
        · subst h1; exact ht
        · exact hpre0 u h2

lemma detachFirst_of_parts (k : Nat) :
    ∀ (pre : List Tree) (c : Tree) (post : List Tree), c.nid = k → (∀ t ∈ pre, t.nid ≠ k) →
      detachFirst k (pre ++ c :: post) = some (c, pre ++ post)
  | [], c, post, hc, _ => by simp [detachFirst, hc]
  | t :: pre, c, post, hc, hpre => by
    have ht : t.nid ≠ k := hpre t (List.mem_cons_self t pre)
    have ih := detachFirst_of_parts k pre c post hc
      (fun u hu => hpre u (List.mem_cons_of_mem t hu))
    simp [detachFirst, ht, ih]

/-- C8: `detatchChild(id)` is total: with no matching child it returns none and
leaves parent and registry untouched (no exception); with a matching child it
erases the first match from the child list, clears that child's parent link,
removes the child's own registry entry (its capability only, never its
descendants'), and returns the child still owning its subtree. -/
theorem detatchChild_total_behavior :
    (∀ (p : Tree) (r : Registry) (k : Nat), (∀ t ∈ p.children, t.nid ≠ k) →
      detatchChild p r k = (p, r, none)) ∧
    (∀ (p : Tree) (r : Registry) (k : Nat) (pre : List Tree) (c : Tree) (post : List Tree),
      p.children = pre ++ c :: post → c.nid = k → (∀ t ∈ pre, t.nid ≠ k) →
      (detatchChild p r k).1 = p.setChildren (pre ++ post) ∧
      (detatchChild p r k).2.2 = some (c.setParentRef none) ∧
      (c.setParentRef none).children = c.children ∧
      (∀ j, j ≠ k → ((j ∈ (detatchChild p r k).2.1.geom ↔ j ∈ r.geom) ∧
        (j ∈ (detatchChild p r k).2.1.ui ↔ j ∈ r.ui))) ∧
      (c.cap = .geometry → k ∉ (detatchChild p r k).2.1.geom) ∧
      (c.cap = .debugUi → k ∉ (detatchChild p r k).2.1.ui) ∧
      (c.cap = .plain → (detatchChild p r k).2.1 = r)) := by
  constructor
  · intro p r k h
    simp [detatchChild, detachFirst_none_of_no_match k p.children h]
  · intro p r k pre c post hch hnid hpre
    have hfind : detachFirst k p.children = some (c, pre ++ post) := by
      rw [hch]; exact detachFirst_of_parts k pre c post hnid hpre
    have hred : detatchChild p r k =
        (p.setChildren (pre ++ post), (cleanupNode c r).2, some (cleanupNode c r).1) := by
      simp [detatchChild, hfind]
    rw [hred]
    refine ⟨rfl, rfl, Tree.children_setParentRef c none, ?_, ?_, ?_, ?_⟩
    · intro j hj
      cases hc : c.cap <;>
        simp [cleanupNode, hc, hnid, Registry.mem_removeGeom_iff, Registry.removeGeom_ui,
          Registry.mem_removeUi_iff, Registry.removeUi_geom, hj]
    · intro hc
      simp [cleanupNode, hc, hnid, Registry.mem_removeGeom_iff]
    · intro hc
      simp [cleanupNode, hc, hnid, Registry.mem_removeUi_iff]
    · intro hc
      simp [cleanupNode, hc]

/-- Witness for `detatchChild_total_behavior`: id 99 is absent (none, no
change), id 2 is present (erased, cleaned up, returned); the unrelated id 7
keeps its registry status and the detached drawable's own entry is gone. -/
theorem detatchChild_total_behavior_witness :
    detatchChild geomChildParent geomChildReg 99 = (geomChildParent, geomChildReg, none) ∧
    (detatchChild geomChildParent geomChildReg 2).1 = geomChildParent.setChildren ([] ++ []) ∧
    (detatchChild geomChildParent geomChildReg 2).2.2 =
      some ((Tree.node 2 .geometry (some 1) []).setParentRef none) ∧
    ((Tree.node 2 .geometry (some 1) []).setParentRef none).children =
      (Tree.node 2 .geometry (some 1) []).children ∧
    (7 ∈ (detatchChild geomChildParent geomChildReg 2).2.1.geom ↔ 7 ∈ geomChildReg.geom) ∧
    2 ∉ (detatchChild geomChildParent geomChildReg 2).2.1.geom := by
  have h := detatchChild_total_behavior.2 geomChildParent geomChildReg 2 []
    (Tree.node 2 .geometry (some 1) []) [] rfl rfl (by simp)
  exact ⟨detatchChild_total_behavior.1 geomChildParent geomChildReg 99 (by decide),
    h.1, h.2.1, h.2.2.1, (h.2.2.2.1 7 (by decide)).1, h.2.2.2.2.1 rfl⟩

lemma geom_foldl_removeGeom_subset :
    ∀ (ids : List Nat) (r : Registry) (j : Nat),
      j ∈ (ids.foldl Registry.removeGeom r).geom → j ∈ r.geom
  | [], _, _, h => h
  | i :: ids, r, j, h => by
    have h2 := geom_foldl_removeGeom_subset ids (r.removeGeom i) j h
    exact ((Registry.mem_removeGeom_iff r i j).mp h2).1

lemma notMem_geom_foldl_removeGeom :
    ∀ (ids : List Nat) (r : Registry) (j : Nat), j ∈ ids →
      j ∉ (ids.foldl Registry.removeGeom r).geom
  | [], _, j, h => by simp at h
  | i :: ids, r, j, h => by
    rcases List.mem_cons.mp h with h1 | h2
    · subst h1
      intro hmem
      have h3 := geom_foldl_removeGeom_subset ids (r.removeGeom j) j hmem
      exact ((Registry.mem_removeGeom_iff r j j).mp h3).2 rfl
    · exact notMem_geom_foldl_removeGeom ids (r.removeGeom i) j h2

lemma ui_foldl_removeGeom :
    ∀ (ids : List Nat) (r : Registry), (ids.foldl Registry.removeGeom r).ui = r.ui
  | [], _ => rfl
  | i :: ids, r => by
    rw [List.foldl_cons, ui_foldl_removeGeom ids (r.removeGeom i), Registry.removeGeom_ui]

lemma cleanupNode_geom_subset (t : Tree) (r : Registry) (j : Nat)
    (h : j ∈ (cleanupNode t r).2.geom) : j ∈ r.geom := by
  cases hc : t.cap
  case geometry =>
    rw [cleanupNode] at h
    simp only [hc] at h
    exact ((Registry.mem_removeGeom_iff r t.nid j).mp h).1
  case debugUi =>
    rw [cleanupNode] at h
    simp only [hc] at h
    rwa [Registry.removeUi_geom] at h
  case plain =>
    rw [cleanupNode] at h
    simpa only [hc] using h

lemma cleanupNode_ui_subset (t : Tree) (r : Registry) (j : Nat)
    (h : j ∈ (cleanupNode t r).2.ui) : j ∈ r.ui := by
  cases hc : t.cap
  case geometry =>
    rw [cleanupNode] at h
    simp only [hc] at h
    rwa [Registry.removeGeom_ui] at h
  case debugUi =>
    rw [cleanupNode] at h
    simp only [hc] at h
    exact ((Registry.mem_removeUi_iff r t.nid j).mp h).1
  case plain =>
    rw [cleanupNode] at h
    simpa only [hc] using h

lemma cleanupNode_self_ui (t : Tree) (r : Registry) (hc : t.cap = .debugUi) :
    t.nid ∉ (cleanupNode t r).2.ui := by
  rw [cleanupNode]
  simp [hc, Registry.mem_removeUi_iff]

lemma detachOneChild_fst (r : Registry) (c : Tree) :
    (detachOneChild r c).1 = c.setParentRef none := by
  simp [detachOneChild, cleanupNode, Tree.setParentRef_setParentRef]

lemma detachOneChild_geom_subset (r : Registry) (c : Tree) (j : Nat)
    (h : j ∈ (detachOneChild r c).2.geom) : j ∈ r.geom :=
  geom_foldl_removeGeom_subset c.postIds r j (cleanupNode_geom_subset c _ j h)

lemma detachOneChild_removes_geom (r : Registry) (c : Tree) (j : Nat) (h : j ∈ c.postIds) :
    j ∉ (detachOneChild r c).2.geom :=
  fun hmem =>
    notMem_geom_foldl_removeGeom c.postIds r j h (cleanupNode_geom_subset c _ j hmem)

lemma detachOneChild_ui_subset (r : Registry) (c : Tree) (j : Nat)
    (h : j ∈ (detachOneChild r c).2.ui) : j ∈ r.ui := by
  have h2 := cleanupNode_ui_subset c _ j h
  rwa [ui_foldl_removeGeom] at h2

lemma detachOneChild_removes_own_ui (r : Registry) (c : Tree) (hc : c.cap = .debugUi) :
    c.nid ∉ (detachOneChild r c).2.ui :=
  cleanupNode_self_ui c _ hc

lemma detachLoop_snd :
    ∀ (cs : List Tree) (r : Registry) (acc : List Tree),
      (cs.foldl detachAllStep (r, acc)).2 = acc ++ cs.map (fun c => c.setParentRef none)
  | [], _, _ => by simp
  | c :: cs, r, acc => by
    rw [List.foldl_cons]
    show (cs.foldl detachAllStep (detachAllStep (r, acc) c)).2 = _
    rw [detachAllStep, detachOneChild_fst,
      detachLoop_snd cs (detachOneChild r c).2 (acc ++ [c.setParentRef none])]
    simp

lemma detachLoop_geom_subset :
    ∀ (cs : List Tree) (r : Registry) (acc : List Tree) (j : Nat),
      j ∈ (cs.foldl detachAllStep (r, acc)).1.geom → j ∈ r.geom
  | [], _, _, _, h => h
  | c :: cs, r, acc, j, h => by
    rw [List.foldl_cons] at h
    exact detachOneChild_geom_subset r c j
      (detachLoop_geom_subset cs (detachOneChild r c).2 _ j h)

lemma detachLoop_ui_subset :
    ∀ (cs : List Tree) (r : Registry) (acc : List Tree) (j : Nat),
      j ∈ (cs.foldl detachAllStep (r, acc)).1.ui → j ∈ r.ui
  | [], _, _, _, h => h
  | c :: cs, r, acc, j, h => by
    rw [List.foldl_cons] at h
    exact detachOneChild_ui_subset r c j
      (detachLoop_ui_subset cs (detachOneChild r c).2 _ j h)

lemma detachLoop_removes_geom :
    ∀ (cs : List Tree) (r : Registry) (acc : List Tree) (j : Nat), j ∈ Forest.postIds cs →
      j ∉ (cs.foldl detachAllStep (r, acc)).1.geom
  | [], _, _, j, h => by simp [Forest.postIds] at h
  | c :: cs, r, acc, j, h => by
    rw [List.foldl_cons]
    rcases List.mem_append.mp (by simpa [Forest.postIds] using h) with h1 | h2
    · intro hmem
      exact detachOneChild_removes_geom r c j h1
        (detachLoop_geom_subset cs (detachOneChild r c).2 _ j hmem)
    · exact detachLoop_removes_geom cs (detachOneChild r c).2 _ j h2

lemma detachLoop_removes_direct_ui :
    ∀ (cs : List Tree) (r : Registry) (acc : List Tree) (c : Tree), c ∈ cs →
      c.cap = .debugUi → c.nid ∉ (cs.foldl detachAllStep (r, acc)).1.ui
  | [], _, _, _, h, _ => by simp at h
  | c0 :: cs, r, acc, c, h, hc => by
    rw [List.foldl_cons]
    rcases List.mem_cons.mp h with h1 | h2
    · subst h1
      intro hmem
      exact detachOneChild_removes_own_ui r c hc
        (detachLoop_ui_subset cs (detachOneChild r c).2 _ c.nid hmem)
    · exact detachLoop_removes_direct_ui cs (detachOneChild r c0).2 _ c h2 hc

/-- C3 counterexample: `detatchAllChildren` does NOT unregister every debug-UI
descendant — the recursive walk only unregisters geometry, and `cleanupNode`
touches only the direct child itself, so the debug-UI grandchild (id 3) of the
detached child keeps its registry entry. -/
theorem detatchAllChildren_misses_deep_ui_entry :
    (detatchAllChildren uiGrandchildTree uiGrandchildReg).2.1.ui = [3] ∧
      3 ∈ Forest.postIds uiGrandchildTree.children ∧
      (uiGrandchildTree.findNode 3).map Tree.cap = some Cap.debugUi := by
  refine ⟨?_, by decide, by decide⟩
  decide

/-- C3 (amended): `detatchAllChildren` empties the parent's child list, returns
the former children in order with their parent links cleared, invokes the
post-order unregister walk whose effect removes every DRAWABLE id of every
child's subtree from the registry, and removes the debug-UI entries of the
direct children themselves — but not those of deeper descendants. -/
theorem detatchAllChildren_amended (p : Tree) (r : Registry) :
    (detatchAllChildren p r).1.children = [] ∧
    (detatchAllChildren p r).2.2 = p.children.map (fun c => c.setParentRef none) ∧
    (∀ c ∈ (detatchAllChildren p r).2.2, c.parentRef = none) ∧
    (∀ j ∈ Forest.postIds p.children, j ∉ (detatchAllChildren p r).2.1.geom) ∧
    (∀ c ∈ p.children, c.cap = .debugUi → c.nid ∉ (detatchAllChildren p r).2.1.ui) ∧
    (∀ t : Tree, t.postIds = Forest.postIds t.children ++ [t.nid]) := by
  refine ⟨by simp [detatchAllChildren, Tree.children_setChildren], ?_, ?_, ?_, ?_,
    Tree.postIds_def⟩
  · show (p.children.foldl detachAllStep (r, [])).2 = _
    rw [detachLoop_snd]
    simp
  · intro c hc
    have h2 : (detatchAllChildren p r).2.2 = p.children.map (fun c => c.setParentRef none) := by
      show (p.children.foldl detachAllStep (r, [])).2 = _
      rw [detachLoop_snd]
      simp
    rw [h2] at hc
    rcases List.mem_map.mp hc with ⟨c0, _, hc0⟩
    rw [← hc0, Tree.parentRef_setParentRef]
  · intro j hj
    exact detachLoop_removes_geom p.children r [] j hj
  · intro c hc hcap
    exact detachLoop_removes_direct_ui p.children r [] c hc hcap

/-- Witness for `detatchAllChildren_amended` on the debug-UI-grandchild tree:
the parent's list is emptied, the child comes back parentless, no drawable id
of the subtree survives in the registry. -/
theorem detatchAllChildren_amended_witness :
    (detatchAllChildren uiGrandchildTree uiGrandchildReg).1.children = [] ∧
      (detatchAllChildren uiGrandchildTree uiGrandchildReg).2.2 =
        uiGrandchildTree.children.map (fun c => c.setParentRef none) ∧
      2 ∉ (detatchAllChildren uiGrandchildTree uiGrandchildReg).2.1.geom ∧
      uiGrandchildTree.postIds =
        Forest.postIds uiGrandchildTree.children ++ [uiGrandchildTree.nid] := by
  have h := detatchAllChildren_amended uiGrandchildTree uiGrandchildReg
  exact ⟨h.1, h.2.1, h.2.2.2.1 2 (by decide), h.2.2.2.2.2 uiGrandchildTree⟩

/-- C6 counterexample: switching scenes away from a root whose subtree holds a
debug-UI grandchild (id 3) leaves that old-tree registry entry in place, so not
every registry entry of the old tree is removed. -/
theorem setScene_keeps_old_ui_entry :
    (setScene engineWithOldScene newRootTree).registry.ui = [3] ∧
      (setScene engineWithOldScene newRootTree).m_sceneNode = some newRootTree ∧
      (uiGrandchildTree.findNode 3).map Tree.cap = some Cap.debugUi :=
  ⟨by decide, rfl, by decide⟩

/-- C6 (amended): `setScene` with an existing root detaches the old root's
children before installing the new root — a single root slot, so no two roots
coexist — and the detach walk removes every DRAWABLE id of the old root's
children's subtrees and the debug-UI entries of the old root's direct children,
while debug-UI entries of deeper old-tree descendants survive the switch. -/
theorem setScene_installs_new_root_after_detach (e : EngineState) (old newRoot : Tree)
    (h : e.m_sceneNode = some old) :
    (setScene e newRoot).m_sceneNode = some newRoot ∧
    (∀ j ∈ Forest.postIds old.children, j ∉ (setScene e newRoot).registry.geom) ∧
    (∀ c ∈ old.children, c.cap = .debugUi → c.nid ∉ (setScene e newRoot).registry.ui) := by
  have hred : setScene e newRoot =
      { e with
        m_sceneNode := some newRoot,
        registry := (removeAllChildNodes old e.registry).2 } := by
    simp [setScene, h]
  rw [hred]
  refine ⟨rfl, ?_, ?_⟩
  · intro j hj
    exact detachLoop_removes_geom old.children e.registry [] j hj
  · intro c hc hcap
    exact detachLoop_removes_direct_ui old.children e.registry [] c hc hcap

/-- Witness for `setScene_installs_new_root_after_detach`: the new root is
installed and the old subtree's drawable id 2 is gone from the registry. -/
theorem setScene_installs_new_root_after_detach_witness :
    (setScene ⟨some geomChildParent, none, geomChildReg⟩ newRootTree).m_sceneNode =
        some newRootTree ∧
      2 ∉ (setScene ⟨some geomChildParent, none, geomChildReg⟩ newRootTree).registry.geom := by
  have h := setScene_installs_new_root_after_detach
    ⟨some geomChildParent, none, geomChildReg⟩ geomChildParent newRootTree rfl
  exact ⟨h.1, h.2.1 2 (by decide)⟩

lemma noreg_states_ok (k : Nat) :
    ∀ (ids : List Nat) (s : Obs), s.inGeom = false → s.inUi = false →
      ∀ st ∈ obsStates k s (ids.map Ev.unregGeom ++ [Ev.setParentEv k none]),
        dangling st = false
  | [], s, hg, hu => by
    intro st hst
    simp only [List.map_nil, List.nil_append, obsStates] at hst
    rcases List.mem_cons.mp hst with h1 | h2
    · subst h1; simp [dangling, hg, hu]
    · have h3 : st = stepObs k s (Ev.setParentEv k none) := by
        simpa [obsStates] using h2
      subst h3
      simp only [stepObs, if_pos rfl]
      simp [dangling, hg, hu]
  | i :: ids, s, hg, hu => by
    intro st hst
    simp only [List.map_cons, List.cons_append, obsStates] at hst
    rcases List.mem_cons.mp hst with h1 | h2
    · subst h1; simp [dangling, hg, hu]
    · have hg2 : (stepObs k s (Ev.unregGeom i)).inGeom = false := by
        simp only [stepObs]
        split_ifs <;> simp [hg]
      have hu2 : (stepObs k s (Ev.unregGeom i)).inUi = false := by
        simp only [stepObs]
        split_ifs <;> simp [hu]
      exact noreg_states_ok k ids _ hg2 hu2 st h2

lemma walk_states_ok (k p0 : Nat) :
    ∀ (ids : List Nat) (s : Obs), s.parentLink = some p0 → s.inUi = false → k ∈ ids →
      ∀ st ∈ obsStates k s (ids.map Ev.unregGeom ++ [Ev.setParentEv k none]),
        dangling st = false
  | [], _, _, _, hmem => by simp at hmem
  | i :: ids, s, hp, hu, hmem => by
    intro st hst
    simp only [List.map_cons, List.cons_append, obsStates] at hst
    rcases List.mem_cons.mp hst with h1 | h2
    · subst h1; simp [dangling, hp]
    · have hp2 : (stepObs k s (Ev.unregGeom i)).parentLink = some p0 := by
        simp only [stepObs]
        split_ifs <;> simp [hp]
      have hu2 : (stepObs k s (Ev.unregGeom i)).inUi = false := by
        simp only [stepObs]
        split_ifs <;> simp [hu]
      by_cases hki : k ∈ ids
      · exact walk_states_ok k p0 ids _ hp2 hu2 hki st h2
      · have hik : i = k := by
          rcases List.mem_cons.mp hmem with h3 | h3
          · exact h3.symm
          · exact absurd h3 hki
        have hg2 : (stepObs k s (Ev.unregGeom i)).inGeom = false := by
          simp only [stepObs, if_pos hik]
        exact noreg_states_ok k ids _ hg2 hu2 st h2

/-- C4 counterexample: during `detatchChild` of the registered drawable child
(id 2), an observable state occurs in which the parent link is already cleared
while the drawable registry entry is still present — `cleanupNode` calls
`setParent(nullptr)` before unregistering. -/
theorem detachChild_observable_dangling_state :
    (obsStates 2 ⟨some 1, true, false⟩ (detatchChildTrace geomChildParent 2)).any dangling =
        true ∧
      geomChildParent.children.map Tree.parentRef = [some 1] ∧
      2 ∈ geomChildReg.geom := by
  refine ⟨?_, by decide, by decide⟩
  decide

/-- C4 (amended): in `detatchFromParent`/`deleteNode` the post-order unregister
walk (which reaches the node itself) precedes the parent-link clear, so a node
with no debug-UI registry entry never exhibits a cleared-parent-but-registered
state; in `detatchChild` (whose cleanup clears the parent link first) a
registered drawable child does pass through such a dangling state. -/
theorem detach_unregister_order :
    (∀ (t : Tree) (p0 : Nat) (s : Obs), s.parentLink = some p0 → s.inUi = false →
      ∀ st ∈ obsStates t.nid s (detatchFromParentTrace t), dangling st = false) ∧
    (∀ (p : Tree) (k : Nat) (c : Tree) (rest : List Tree),
      detachFirst k p.children = some (c, rest) → c.cap = .geometry →
      (obsStates k ⟨some p.nid, true, false⟩ (detatchChildTrace p k)).any dangling = true) := by
  constructor
  · intro t p0 s hp hu st hst
    exact walk_states_ok t.nid p0 t.postIds s hp hu (Tree.nid_mem_postIds t) st hst
  · intro p k c rest hfind hcap
    obtain ⟨pre, post, _, _, hnid, _⟩ := detachFirst_parts k p.children c rest hfind
    have htr : detatchChildTrace p k =
        [Ev.eraseChild p.nid k, Ev.setParentEv k none, Ev.unregGeom k] := by
      simp [detatchChildTrace, hfind, cleanupTrace, hcap, hnid]
    rw [htr]
    apply List.any_eq_true.mpr
    refine ⟨⟨none, true, false⟩, ?_, rfl⟩
    simp only [obsStates, stepObs, if_pos rfl]
    simp [obsStates, stepObs]

/-- Witness for `detach_unregister_order`: the final observable state of a
`detatchFromParent` on the drawable node 2 is clean, while `detatchChild` on
the same registered child passes through a dangling state. -/
theorem detach_unregister_order_witness :
    dangling ⟨none, false, false⟩ = false ∧
      (obsStates 2 ⟨some 1, true, false⟩ (detatchChildTrace geomChildParent 2)).any dangling =
        true :=
  ⟨detach_unregister_order.1 (Tree.node 2 .geometry (some 1) []) 1 ⟨some 1, true, false⟩ rfl rfl
      ⟨none, false, false⟩ (by decide),
   detach_unregister_order.2 geomChildParent 2 (Tree.node 2 .geometry (some 1) []) [] rfl rfl⟩

lemma nodup_insert_before_last {F C : List Nat} {i : Nat} (h1 : (F ++ [i]).Nodup)
    (h2 : C.Nodup) (hd : ∀ a ∈ C, a ∉ F ++ [i]) : (F ++ (C ++ [i])).Nodup := by
  rcases List.nodup_append.mp h1 with ⟨hF, _, hFi⟩
  rw [List.nodup_append]
  refine ⟨hF, ?_, ?_⟩
  · rw [List.nodup_append]
    refine ⟨h2, List.nodup_singleton i, ?_⟩
    intro a ha hai
    exact hd a ha (List.mem_append_right F hai)
  · intro a haF hmem
    rcases List.mem_append.mp hmem with hC | hi
    · exact hd a hC (List.mem_append_left [i] haF)
    · exact hFi haF hi

lemma backrefOkF_all (pid : Nat) :
    ∀ cs : List Tree, backrefOkF pid cs = true →
      ∀ c ∈ cs, c.parentRef = some pid ∧ c.backrefOk = true
  | [], _, c, hc => by simp at hc
  | t :: ts, h, c, hc => by
    have h2 : (t.parentRef == some pid) = true ∧ t.backrefOk = true ∧
        backrefOkF pid ts = true := by
      simpa [backrefOkF, Bool.and_eq_true, and_assoc] using h
    rcases List.mem_cons.mp hc with h1 | h3
    · subst h1
      exact ⟨beq_iff_eq.mp h2.1, h2.2.1⟩
    · exact backrefOkF_all pid ts h2.2.2 c h3

lemma postIds_sublist_forest :
    ∀ (cs : List Tree) (c : Tree), c ∈ cs → c.postIds.Sublist (Forest.postIds cs)
  | c0 :: cs, c, h => by
    rcases List.mem_cons.mp h with h1 | h2
    · subst h1
      exact List.sublist_append_left c.postIds (Forest.postIds cs)
    · exact (postIds_sublist_forest cs c h2).trans
        (List.sublist_append_right c0.postIds (Forest.postIds cs))

lemma consistent_child (p : Tree) (hp : p.consistent) :
    ∀ c ∈ p.children, c.consistent ∧ c.parentRef = some p.nid := by
  intro c hc
  have hok := backrefOkF_all p.nid p.children (by rw [← Tree.backrefOk_def]; exact hp.1) c hc
  refine ⟨⟨hok.2, ?_⟩, hok.1⟩
  have hsub : c.postIds.Sublist p.postIds := by
    rw [Tree.postIds_def p]
    exact (postIds_sublist_forest p.children c hc).trans
      (List.sublist_append_left (Forest.postIds p.children) [p.nid])
  exact hp.2.sublist hsub

lemma findNode_self (t : Tree) (k : Nat) (h : t.nid = k) : t.findNode k = some t := by
  cases t with
  | node i c pr cs =>
    have h2 : i = k := h
    simp [Tree.findNode, h2]

lemma findInForest_isSome (k : Nat) :
    ∀ cs : List Tree, (∃ c ∈ cs, c.nid = k) → findInForest cs k ≠ none
  | [], h => by simp at h
  | t :: ts, h => by
    obtain ⟨c, hc, hnid⟩ := h
    cases hf : t.findNode k with
    | some u => simp [findInForest, hf]
    | none =>
      rcases List.mem_cons.mp hc with h1 | h2
      · subst h1
        rw [findNode_self c k hnid] at hf
        exact absurd hf (by simp)
      · simp only [findInForest, hf]
        exact findInForest_isSome k ts ⟨c, h2, hnid⟩

lemma mapAtForest_eq_map :
    ∀ (cs : List Tree) (k : Nat) (f : Tree → Tree),
      mapAtForest cs k f = cs.map (fun t => t.mapAt k f)
  | [], _, _ => rfl
  | t :: ts, k, f => by
    simp [mapAtForest, mapAtForest_eq_map ts k f]

/-- C7 counterexample: the child (id 2) is detached from its parent via
`detatchFromParent`, which clears its back-reference but leaves it inside the
parent's child list — the ownership invariant (child-list membership iff
back-reference) is broken by this operation. -/
theorem detachFromParent_breaks_ownership :
    geomChildParent.consistent ∧
      ¬ ((detachFromParentAt geomChildParent 2 geomChildReg).1).consistent ∧
      ((detachFromParentAt geomChildParent 2 geomChildReg).1).children.map Tree.parentRef =
        [none] ∧
      ((detachFromParentAt geomChildParent 2 geomChildReg).1).children.map Tree.nid = [2] := by
  refine ⟨by decide, ?_, by decide, by decide⟩
  decide

/-- C7 (amended): `addChild` (on an id-disjoint standalone child),
`detatchChild` and `detatchAllChildren` preserve the ownership invariant —
at most one parent, child-list membership matching the parent back-reference,
no id in two places — while `detatchFromParent`/`deleteNode` clear the node's
back-reference but leave it inside the former parent's child list. -/
theorem graph_ops_preserve_ownership :
    (∀ (p c : Tree) (r : Registry), p.consistent → c.consistent →
      (∀ a ∈ c.postIds, a ∉ p.postIds) → ((addChild p c r).1).consistent) ∧
    (∀ (p : Tree) (r : Registry) (k : Nat), p.consistent →
      ((detatchChild p r k).1).consistent ∧
      (∀ c0, (detatchChild p r k).2.2 = some c0 → c0.consistent ∧ c0.parentRef = none)) ∧
    (∀ (p : Tree) (r : Registry), p.consistent →
      ((detatchAllChildren p r).1).consistent ∧
      (∀ c0 ∈ (detatchAllChildren p r).2.2, c0.consistent ∧ c0.parentRef = none)) ∧
    (∀ (p : Tree) (r : Registry) (k : Nat), k ≠ p.nid →
      p.children.any (fun c => c.nid == k) = true →
      ((detachFromParentAt p k r).1).children.any
        (fun c2 => c2.nid == k && c2.parentRef == none) = true) := by
  refine ⟨?_, ?_, ?_, ?_⟩
  · intro p c r hp hc hdisj
    have hch : (addChild p c r).1 = p.setChildren
        (p.children ++ [c.setParentRef (some p.nid)]) := rfl
    constructor
    · rw [hch, Tree.backrefOk_setChildren, backrefOkF_append]
      have h1 : backrefOkF p.nid p.children = true := by
        rw [← Tree.backrefOk_def]; exact hp.1
      have h2 : backrefOkF p.nid [c.setParentRef (some p.nid)] = true := by
        simp [backrefOkF, Tree.parentRef_setParentRef, Tree.backrefOk_setParentRef, hc.1]
      rw [h1, h2]
      rfl
    · rw [hch, Tree.postIds_setChildren, Forest.postIds_append]
      have h3 : Forest.postIds [c.setParentRef (some p.nid)] = c.postIds := by
        simp [Forest.postIds, Tree.postIds_setParentRef]
      rw [h3, List.append_assoc]
      have h4 : (Forest.postIds p.children ++ [p.nid]).Nodup := by
        rw [← Tree.postIds_def]; exact hp.2
      refine nodup_insert_before_last h4 hc.2 ?_
      intro a ha
      rw [← Tree.postIds_def]
      exact hdisj a ha
  · intro p r k hp
    cases hfind : detachFirst k p.children with
    | none =>
      have hid : detatchChild p r k = (p, r, none) := by simp [detatchChild, hfind]
      rw [hid]
      exact ⟨hp, by intro c0 h; simp at h⟩
    | some pr =>
      obtain ⟨c, rest⟩ := pr
      obtain ⟨pre, post, hch, hrest, hnid, _⟩ := detachFirst_parts k p.children c rest hfind
      have hcmem : c ∈ p.children := by
        rw [hch]
        exact List.mem_append_right pre (List.mem_cons_self c post)
      have hcons := consistent_child p hp c hcmem
      have hred : detatchChild p r k =
          (p.setChildren rest, (cleanupNode c r).2, some (cleanupNode c r).1) := by
        simp [detatchChild, hfind]
      rw [hred]
      subst hrest
      constructor
      · constructor
        · rw [Tree.backrefOk_setChildren, backrefOkF_append]
          have hok : backrefOkF p.nid p.children = true := by
            rw [← Tree.backrefOk_def]; exact hp.1
          rw [hch, backrefOkF_append] at hok
          have hpre : backrefOkF p.nid pre = true := by
            cases hx : backrefOkF p.nid pre <;> simp [hx] at hok ⊢
          have hpost : backrefOkF p.nid post = true := by
            rw [hpre] at hok
            simp [backrefOkF, Bool.and_eq_true] at hok
            exact hok.2
          rw [hpre, hpost]
          rfl
        · have hsub : ((p.setChildren (pre ++ post)).postIds).Sublist p.postIds := by
            rw [Tree.postIds_setChildren, Tree.postIds_def, hch, Forest.postIds_append,
              Forest.postIds_append]
            show (Forest.postIds pre ++ Forest.postIds post ++ [p.nid]).Sublist
              (Forest.postIds pre ++ Forest.postIds (c :: post) ++ [p.nid])
            rw [List.append_assoc, List.append_assoc]
            refine List.Sublist.append_left ?_ (Forest.postIds pre)
            show (Forest.postIds post ++ [p.nid]).Sublist
              (c.postIds ++ Forest.postIds post ++ [p.nid])
            rw [List.append_assoc]
            exact List.sublist_append_right c.postIds (Forest.postIds post ++ [p.nid])
          exact hp.2.sublist hsub
      · intro c0 h0
        have h1 : some (c.setParentRef none) = some c0 := by
          simpa [cleanupNode] using h0
        have hc0 : c0 = c.setParentRef none := (Option.some.inj h1).symm
        subst hc0
        exact ⟨⟨by rw [Tree.backrefOk_setParentRef]; exact hcons.1.1,
          by rw [Tree.postIds_setParentRef]; exact hcons.1.2⟩,
          Tree.parentRef_setParentRef c none⟩
  · intro p r hp
    have h1 : (detatchAllChildren p r).1 = p.setChildren [] := rfl
    constructor
    · exact ⟨by rw [h1, Tree.backrefOk_setChildren]; rfl,
        by rw [h1, Tree.postIds_setChildren]; simp [Forest.postIds]⟩
    · intro c0 h0
      have hsnd : (detatchAllChildren p r).2.2 =
          p.children.map (fun c => c.setParentRef none) := by
        show (p.children.foldl detachAllStep (r, [])).2 = _
        rw [detachLoop_snd]
        simp
      rw [hsnd] at h0
      rcases List.mem_map.mp h0 with ⟨c, hc, hc0⟩
      have hcons := consistent_child p hp c hc
      subst hc0
      exact ⟨⟨by rw [Tree.backrefOk_setParentRef]; exact hcons.1.1,
        by rw [Tree.postIds_setParentRef]; exact hcons.1.2⟩,
        Tree.parentRef_setParentRef c none⟩
  · intro p r k hk hany
    obtain ⟨c, hc, hcnid⟩ := List.any_eq_true.mp hany
    have hnid : c.nid = k := beq_iff_eq.mp hcnid
    cases p with
    | node i cap pr cs =>
      have hik : ¬ (i = k) := fun h => hk (h.symm)
      have hfind : Tree.findNode (.node i cap pr cs) k ≠ none := by
        simp only [Tree.findNode, if_neg hik]
        exact findInForest_isSome k cs ⟨c, hc, hnid⟩
      cases hfn : Tree.findNode (.node i cap pr cs) k with
      | none => exact absurd hfn hfind
      | some sub =>
        have hred : (detachFromParentAt (.node i cap pr cs) k r).1 =
            (Tree.node i cap pr cs).mapAt k (fun t => t.setParentRef none) := by
          simp [detachFromParentAt, hfn]
        rw [hred]
        have hmap : (Tree.node i cap pr cs).mapAt k (fun t => t.setParentRef none) =
            .node i cap pr (mapAtForest cs k (fun t => t.setParentRef none)) := by
          simp [Tree.mapAt, hik]
        rw [hmap]
        apply List.any_eq_true.mpr
        refine ⟨c.setParentRef none, ?_, ?_⟩
        · show c.setParentRef none ∈ Tree.children _
          rw [show (Tree.node i cap pr
              (mapAtForest cs k (fun t => t.setParentRef none))).children =
              mapAtForest cs k (fun t => t.setParentRef none) from rfl,
            mapAtForest_eq_map]
          have hcmap : c.mapAt k (fun t => t.setParentRef none) = c.setParentRef none := by
            cases c with
            | node j jc jp jcs =>
              have hj : j = k := hnid
              simp [Tree.mapAt, hj]
          rw [← hcmap]
          exact List.mem_map_of_mem _ hc
        · simp [Tree.nid_setParentRef, hnid, Tree.parentRef_setParentRef]

/-- Witness for `graph_ops_preserve_ownership` on concrete trees: attach a
fresh drawable, detach child 2, detach all children, and observe the broken
back-reference after `detatchFromParent`. -/
theorem graph_ops_preserve_ownership_witness :
    ((addChild pEmpty cGeom emptyReg).1).consistent ∧
      ((detatchChild geomChildParent geomChildReg 2).1).consistent ∧
      ((detatchAllChildren uiGrandchildTree uiGrandchildReg).1).consistent ∧
      ((detachFromParentAt geomChildParent 2 geomChildReg).1).children.any
        (fun c2 => c2.nid == 2 && c2.parentRef == none) = true :=
  ⟨graph_ops_preserve_ownership.1 pEmpty cGeom emptyReg (by decide) (by decide) (by decide),
   (graph_ops_preserve_ownership.2.1 geomChildParent geomChildReg 2 (by decide)).1,
   (graph_ops_preserve_ownership.2.2.1 uiGrandchildTree uiGrandchildReg (by decide)).1,
   graph_ops_preserve_ownership.2.2.2 geomChildParent geomChildReg 2 (by decide) (by decide)⟩

end SceneGraphProofs

end Engine02
